import Mathlib

/-!
Verification of the availability selection and pricing logic of the
`ServiceAvailability` component (`src/pages/ServiceAvailability.tsx`).

The component owns three pieces of state — the fetched slot list, the
selection set of slot identifiers, and an error message — and three
operations: the `loadSlots` effect (fetch slots for a resource/date pair,
resetting the selection), the `toggleSelect` click handler, and a derived
`total`.  The definitions below embed those operations shallowly:
timestamps are milliseconds since the epoch as `Nat`, dates are day
indices, the nullable `slot_price` column is `Option Int`, and the remote
`slots` table is a `List Slot` that the query filters and orders.
-/

namespace SupaLink

/-- A row of the `slots` table as selected by the component
(`id, start_time, end_time, is_booked, slot_price, resource_id`).
`start_time` and `end_time` are instants in milliseconds; `slot_price`
is nullable in the generated schema, hence `Option`. -/
structure Slot where
  id : String
  start_time : Nat
  end_time : Nat
  is_booked : Bool
  slot_price : Option Int
  resource_id : String
deriving DecidableEq

/-- The price the component reads off a slot row: `slot_price || 0`
maps a null (or zero) price to `0`. -/
def price (s : Slot) : Int :=
  s.slot_price.getD 0

/-- The `total` memo:
`slots.filter(s => selected.has(s.id)).reduce((sum, s) => sum + (s.slot_price || 0), 0)`. -/
def total (slots : List Slot) (selectedSlotIds : Finset String) : Int :=
  (slots.filter fun s => decide (s.id ∈ selectedSlotIds)).foldl
    (fun sum s => sum + price s) 0

/-- The formulation that the spec gives of the total, stated independently of the code:
the sum over all of `S` of the price of each slot whose identifier is in
the selection, other slots contributing `0`.  Used only to compare with
`total`. -/
def specTotal (S : List Slot) (sel : Finset String) : Int :=
  (S.map fun s => if s.id ∈ sel then price s else 0).sum

/-- The `toggleSelect` click handler: a booked slot is ignored, otherwise
membership of the identifier of the slot in the selection set is flipped. -/
def toggleSelect (slot : Slot) (prev : Finset String) : Finset String :=
  if slot.is_booked then prev
  else if slot.id ∈ prev then prev.erase slot.id
  else insert slot.id prev

/-- Folding the running sum from `c` adds the mapped prices to `c`. -/
theorem foldl_add_price (l : List Slot) (c : Int) :
    l.foldl (fun sum s => sum + price s) c = c + (l.map price).sum := by
  induction l generalizing c with
  | nil => simp
  | cons s t ih => simp [ih, add_assoc]

theorem total_eq_filter_sum (S : List Slot) (sel : Finset String) :
    total S sel = ((S.filter fun s => decide (s.id ∈ sel)).map price).sum := by
  rw [total, foldl_add_price, zero_add]

/-- C1: the derived total is the sum of the prices of exactly the slots of
`S` whose identifier is selected; a selected identifier matching no slot
contributes nothing, and the empty selection totals `0`. -/
theorem total_correct (S : List Slot) (sel : Finset String) :
    total S sel = specTotal S sel
    ∧ total S (∅ : Finset String) = 0
    ∧ ∀ x : String, x ∉ S.map Slot.id → total S (insert x sel) = total S sel := by
  refine ⟨?_, ?_, ?_⟩
  · rw [total_eq_filter_sum, specTotal]
    induction S with
    | nil => simp
    | cons s t ih =>
      by_cases h : s.id ∈ sel <;> simp [List.filter_cons, h, ih]
  · simp [total_eq_filter_sum]
  · intro x hx
    rw [total_eq_filter_sum, total_eq_filter_sum]
    have hcong : ∀ s ∈ S, decide (s.id ∈ insert x sel) = decide (s.id ∈ sel) := by
      intro s hs
      have hne : s.id ≠ x := by
        intro h
        exact hx (h ▸ List.mem_map_of_mem Slot.id hs)
      simp [Finset.mem_insert, hne]
    rw [List.filter_congr hcong]

/-- Witness for C1 at a concrete slot list and selection. -/
theorem total_correct_witness :
    total [⟨"a", 0, 1, false, some 5, "r"⟩, ⟨"b", 1, 2, false, some 7, "r"⟩] {"a", "c"}
        = specTotal [⟨"a", 0, 1, false, some 5, "r"⟩, ⟨"b", 1, 2, false, some 7, "r"⟩] {"a", "c"}
    ∧ "c" ∉ ([⟨"a", 0, 1, false, some 5, "r"⟩] : List Slot).map Slot.id
    ∧ total [⟨"a", 0, 1, false, some 5, "r"⟩] (insert "c" {"a"})
        = total [⟨"a", 0, 1, false, some 5, "r"⟩] {"a"} := by
  refine ⟨(total_correct _ _).1, by decide, ?_⟩
  exact (total_correct [⟨"a", 0, 1, false, some 5, "r"⟩] {"a"}).2.2 "c" (by decide)

/-- The update `setSelectedResourceId((prev) => prev || initialRes.id)`
after a successful resolve of the starting resource: JavaScript `||`
falls through to the resolved identifier when `prev` is `undefined` or
the empty string, and keeps `prev` otherwise. -/
def orDefault (prev : Option String) (resolvedId : String) : String :=
  match prev with
  | none => resolvedId
  | some p => if p = "" then resolvedId else p

/-- C6: toggling a booked slot leaves the selection exactly unchanged,
whatever its prior membership state. -/
theorem toggleSelect_booked_noop (slot : Slot) (prev : Finset String)
    (h : slot.is_booked = true) :
    toggleSelect slot prev = prev := by
  simp [toggleSelect, h]

/-- Witness for C6: a booked slot is ignored both when its identifier is
already selected and when it is not. -/
theorem toggleSelect_booked_noop_witness :
    toggleSelect ⟨"a", 0, 1, true, some 5, "r"⟩ {"a", "b"} = {"a", "b"}
    ∧ toggleSelect ⟨"a", 0, 1, true, some 5, "r"⟩ {"b"} = {"b"} :=
  ⟨toggleSelect_booked_noop _ _ rfl, toggleSelect_booked_noop _ _ rfl⟩

/-- C7: toggling an unbooked slot twice restores the selection exactly. -/
theorem toggleSelect_involutive (slot : Slot) (prev : Finset String)
    (h : slot.is_booked = false) :
    toggleSelect slot (toggleSelect slot prev) = prev := by
  by_cases hm : slot.id ∈ prev
  · have h1 : toggleSelect slot prev = prev.erase slot.id := by
      simp [toggleSelect, h, hm]
    rw [h1]
    have hnot : slot.id ∉ prev.erase slot.id := Finset.not_mem_erase _ _
    simp [toggleSelect, h, hnot, Finset.insert_erase hm]
  · have h1 : toggleSelect slot prev = insert slot.id prev := by
      simp [toggleSelect, h, hm]
    rw [h1]
    simp [toggleSelect, h, Finset.mem_insert_self, Finset.erase_insert hm]

/-- Witness for C7 at a concrete unbooked slot, from both membership
states. -/
theorem toggleSelect_involutive_witness :
    toggleSelect ⟨"a", 0, 1, false, some 5, "r"⟩
        (toggleSelect ⟨"a", 0, 1, false, some 5, "r"⟩ {"a", "b"}) = {"a", "b"}
    ∧ toggleSelect ⟨"a", 0, 1, false, some 5, "r"⟩
        (toggleSelect ⟨"a", 0, 1, false, some 5, "r"⟩ {"b"}) = {"b"} :=
  ⟨toggleSelect_involutive _ _ rfl, toggleSelect_involutive _ _ rfl⟩

/-- C9: after a successful resolve, a selected resource already set by a
prior interaction is preserved unchanged; only an unset selected resource
defaults to the resolved starting resource. -/
theorem selectedResourceId_preserved (resolvedId : String) :
    (∀ p : String, p ≠ "" → orDefault (some p) resolvedId = p)
    ∧ orDefault none resolvedId = resolvedId := by
  constructor
  · intro p hp
    simp [orDefault, hp]
  · rfl

/-- Witness for C9: a prior user choice survives re-resolution and an
unset choice defaults to the seed. -/
theorem selectedResourceId_preserved_witness :
    orDefault (some "court-b") "seed" = "court-b"
    ∧ orDefault none "seed" = "seed" :=
  ⟨(selectedResourceId_preserved "seed").1 "court-b" (by decide),
   (selectedResourceId_preserved "seed").2⟩

/-- C10: a selected slot whose `slot_price` is null (or zero) contributes
exactly `0` to the total — the `slot_price || 0` guard makes the fold
total, never an error or a propagated missing value. -/
theorem total_null_price_contributes_zero (s : Slot) (S : List Slot)
    (sel : Finset String) (h : s.slot_price = none ∨ s.slot_price = some 0) :
    total (s :: S) sel = total S sel := by
  have hp : price s = 0 := by
    rcases h with h | h <;> simp [price, h]
  rw [total_eq_filter_sum, total_eq_filter_sum, List.filter_cons]
  by_cases hm : s.id ∈ sel <;> simp [hm, hp]

/-- Witness for C10: a null-priced selected slot leaves the total at the
value contributed by the rest of the list. -/
theorem total_null_price_contributes_zero_witness :
    total [⟨"a", 0, 1, false, none, "r"⟩, ⟨"b", 1, 2, false, some 7, "r"⟩] {"a", "b"}
      = total [⟨"b", 1, 2, false, some 7, "r"⟩] {"a", "b"}
    ∧ total [⟨"b", 1, 2, false, some 7, "r"⟩] {"a", "b"} = 7 :=
  ⟨total_null_price_contributes_zero _ _ _ (Or.inl rfl), by decide⟩

/-! ### The slot query

`loadSlots` builds the day window with date-fns: `start = startOfDay(d)`
(the local midnight of the day) and `end = endOfDay(d)` (its
23:59:59.999, i.e. one millisecond before the next midnight), then asks
the store for rows with `resource_id = r`, `start_time >= start`,
`start_time < end`, ordered by `start_time` ascending.  Days are indexed
by `Nat`; instants are milliseconds. -/

def msPerDay : Nat := 86400000

/-- `startOfDay` of day `d`: its local midnight, in milliseconds. -/
def startOfDay (d : Nat) : Nat := d * msPerDay

/-- date-fns `endOfDay` of day `d`: 23:59:59.999 of the same day. -/
def endOfDay (d : Nat) : Nat := d * msPerDay + (msPerDay - 1)

/-- The row filter of the supabase query:
`.eq("resource_id", r).gte("start_time", start).lt("start_time", end)`. -/
def slotQueryMatch (resourceId : String) (d : Nat) (s : Slot) : Bool :=
  s.resource_id == resourceId
    && decide (startOfDay d ≤ s.start_time)
    && decide (s.start_time < endOfDay d)

/-- Ascending order on `start_time`, the `order` clause of the query. -/
def slotLE (a b : Slot) : Prop := a.start_time ≤ b.start_time

instance : DecidableRel slotLE := fun a b => Nat.decLe a.start_time b.start_time

instance : IsTotal Slot slotLE := ⟨fun a b => Nat.le_total a.start_time b.start_time⟩

instance : IsTrans Slot slotLE := ⟨fun _ _ _ => Nat.le_trans⟩

/-- The slot query against a store of rows: filter by resource and day
window, order ascending by `start_time` (any stable order-by; insertion
sort realises it). -/
def listSlots (store : List Slot) (resourceId : String) (d : Nat) : List Slot :=
  List.insertionSort slotLE (store.filter (slotQueryMatch resourceId d))

/-- Counterexample to C4: a slot starting in the final millisecond of the day
(23:59:59.999) lies inside the claimed half-open window
`[startOfDay d, startOfDay (d+1))` yet is rejected by the query, because
the upper bound of the query is `endOfDay d`, one millisecond short of the
next midnight. -/
theorem slotQuery_excludes_final_millisecond :
    (⟨"x", 86399999, 86400000, false, some 10, "r"⟩ : Slot).resource_id = "r"
    ∧ startOfDay 0 ≤ (⟨"x", 86399999, 86400000, false, some 10, "r"⟩ : Slot).start_time
    ∧ (⟨"x", 86399999, 86400000, false, some 10, "r"⟩ : Slot).start_time < startOfDay 1
    ∧ slotQueryMatch "r" 0 ⟨"x", 86399999, 86400000, false, some 10, "r"⟩ = false
    ∧ listSlots [⟨"x", 86399999, 86400000, false, some 10, "r"⟩] "r" 0 = [] := by
  refine ⟨rfl, by decide, by decide, by decide, rfl⟩

/-- C4 (amended): `loadSlots` requests exactly the slots of the resource
whose start timestamp lies in `[startOfDay d, endOfDay d)` where
`endOfDay d = startOfDay (d+1) - 1` — one millisecond short of the next
midnight, so the final millisecond of the day is excluded — ordered ascending
by start timestamp. -/
theorem listSlots_window_and_order (store : List Slot) (resourceId : String) (d : Nat) :
    (∀ s : Slot, s ∈ listSlots store resourceId d ↔
        s ∈ store ∧ s.resource_id = resourceId
          ∧ startOfDay d ≤ s.start_time ∧ s.start_time < endOfDay d)
    ∧ List.Sorted slotLE (listSlots store resourceId d)
    ∧ endOfDay d = startOfDay (d + 1) - 1 := by
  refine ⟨?_, List.sorted_insertionSort slotLE _, ?_⟩
  · intro s
    rw [listSlots, List.mem_insertionSort, List.mem_filter, slotQueryMatch]
    simp only [Bool.and_eq_true, beq_iff_eq, decide_eq_true_eq]
    tauto
  · simp only [startOfDay, endOfDay, msPerDay]
    omega

/-! ### One run of the `loadSlots` effect

The effect body, viewed atomically over one (resource, date) change:
guard `if (!selectedResourceId || !selectedDate) return;` first (so a
missing input skips EVERYTHING, the selection reset included), then
`setSelectedSlotIds(new Set())`, then the query; on success
`setSlots(data || [])`, on failure only `setError(message)` — the slot
list is not touched in the catch branch. -/

/-- The slot/selection/error state the effect reads and writes. -/
structure LoadState where
  slots : List Slot
  selectedSlotIds : Finset String
  errorMsg : Option String
deriving DecidableEq

/-- One run of the `loadSlots` effect body.  `fetchFails = some msg`
models the query rejecting with `msg`; `none` models success, in which
case the store answers `listSlots store r d`.  A JavaScript-falsy
`selectedResourceId` (absent or empty) or an absent date hits the early
`return`, leaving the whole state untouched. -/
def runLoadSlots (selectedResourceId : Option String) (selectedDate : Option Nat)
    (store : List Slot) (fetchFails : Option String) (st : LoadState) : LoadState :=
  match selectedResourceId, selectedDate with
  | some r, some d =>
    if r = "" then st
    else
      match fetchFails with
      | none => { slots := listSlots store r d, selectedSlotIds := ∅, errorMsg := none }
      | some msg => { slots := st.slots, selectedSlotIds := ∅, errorMsg := some msg }
  | _, _ => st

/-- Counterexample to C2: with the resource absent, the early
return fires before the selection reset, so a nonempty prior Selection
survives the change unchanged — the skip-on-missing-input rule spares the
Selection too, contrary to the claim. -/
theorem loadSlots_skip_spares_selection :
    (runLoadSlots none (some 0) [] none
        { slots := [], selectedSlotIds := {"a"}, errorMsg := none }).selectedSlotIds = {"a"}
    ∧ ({"a"} : Finset String) ≠ (∅ : Finset String) := by
  exact ⟨rfl, by decide⟩

/-- C2 (amended): whenever the active resource and date are both present
(the resource non-empty), the run leaves the Selection empty — the reset
happens before and independently of the fetch outcome, success or
failure alike; when either input is absent the effect is skipped
entirely, preserving the Selection along with the slot list. -/
theorem loadSlots_resets_selection (r : String) (d : Nat) (store : List Slot)
    (fetchFails : Option String) (st : LoadState) (hr : r ≠ "") :
    (runLoadSlots (some r) (some d) store fetchFails st).selectedSlotIds = ∅
    ∧ (∀ od : Option Nat, runLoadSlots none od store fetchFails st = st)
    ∧ (∀ orid : Option String, runLoadSlots orid none store fetchFails st = st) := by
  refine ⟨?_, fun od => ?_, fun orid => ?_⟩
  · cases fetchFails <;> simp [runLoadSlots, hr]
  · cases od <;> rfl
  · cases orid <;> rfl

/-- Witness for C2 (amended): a concrete nonempty selection is cleared on
a present-input run, even a failing one, and preserved on a skipped run. -/
theorem loadSlots_resets_selection_witness :
    (runLoadSlots (some "r") (some 0) [] (some "boom")
        { slots := [], selectedSlotIds := {"a"}, errorMsg := none }).selectedSlotIds = ∅
    ∧ runLoadSlots none none [] (some "boom")
        { slots := [], selectedSlotIds := {"a"}, errorMsg := none }
      = { slots := [], selectedSlotIds := {"a"}, errorMsg := none } :=
  ⟨(loadSlots_resets_selection "r" 0 [] (some "boom") _ (by decide)).1,
   (loadSlots_resets_selection "r" 0 [] (some "boom")
      { slots := [], selectedSlotIds := {"a"}, errorMsg := none } (by decide)).2.1 none⟩

/-- Counterexample to C5: when the fetch fails, the slot list keeps its
previous (stale) value — it is not left empty for that cycle. -/
theorem loadSlots_failure_keeps_stale_slots :
    (runLoadSlots (some "r") (some 0) [] (some "boom")
        { slots := [⟨"a", 0, 1, false, some 5, "r"⟩], selectedSlotIds := ∅,
          errorMsg := none }).slots = [⟨"a", 0, 1, false, some 5, "r"⟩]
    ∧ ([⟨"a", 0, 1, false, some 5, "r"⟩] : List Slot) ≠ [] := by
  exact ⟨rfl, by decide⟩

/-- C5 (amended): when a slot fetch fails, the run returns normally with
the slot list left at its previous value, an emptied selection, and the
failure surfaced only as the display message — nothing is thrown onward. -/
theorem loadSlots_failure_behaviour (r : String) (d : Nat) (store : List Slot)
    (msg : String) (st : LoadState) (hr : r ≠ "") :
    runLoadSlots (some r) (some d) store (some msg) st
      = { slots := st.slots, selectedSlotIds := ∅, errorMsg := some msg } := by
  simp [runLoadSlots, hr]

/-- Witness for C5 (amended) at a concrete failing run. -/
theorem loadSlots_failure_behaviour_witness :
    runLoadSlots (some "r") (some 0) [] (some "boom")
        { slots := [⟨"a", 0, 1, false, some 5, "r"⟩], selectedSlotIds := {"a"},
          errorMsg := none }
      = { slots := [⟨"a", 0, 1, false, some 5, "r"⟩], selectedSlotIds := ∅,
          errorMsg := some "boom" } :=
  loadSlots_failure_behaviour "r" 0 [] "boom" _ (by decide)

/-! ### The event-level machine

To reason about overlapping fetches, the effect is split into its two
real phases.  Changing the (resource, date) key runs the synchronous
prefix of the effect — `setLoadingSlots(true); setError(null);
setSelectedSlotIds(new Set())` — and leaves a fetch in flight carrying
the captured key.  A fetch completing later runs the continuation:
`setSlots(...)` (or `setError` on failure) and the
`setLoadingSlots(false)` of the `finally` block.  The code applies every completion as it
arrives: there is no generation counter and no comparison of the
captured key against the current one.  Slot rows are clickable only
while not loading, and only rows of the current list are rendered. -/

/-- A fetch in flight, carrying the (resource, day) key captured at
initiation. -/
structure PendingFetch where
  resource_id : String
  day : Nat
deriving DecidableEq

/-- The component state the slot/selection logic touches. -/
structure SAState where
  slots : List Slot
  selectedSlotIds : Finset String
  pending : List PendingFetch
  loadingSlots : Bool
  errorMsg : Option String
deriving DecidableEq

/-- Initial state: no slots, empty selection, nothing in flight. -/
def initState : SAState :=
  { slots := [], selectedSlotIds := ∅, pending := [], loadingSlots := false,
    errorMsg := none }

/-- The externally visible events: a (resource, date) change initiating a
fetch, the `i`-th in-flight fetch completing (successfully against the
store, or failing with a message), and a click on a slot row. -/
inductive Event where
  | changeKey (resourceId : String) (day : Nat)
  | complete (i : Nat)
  | completeErr (i : Nat) (msg : String)
  | toggle (slot : Slot)
deriving DecidableEq

/-- One step of the component, as the code behaves: a completing fetch is
applied unconditionally, whichever key it captured. -/
def step (store : List Slot) (st : SAState) (e : Event) : SAState :=
  match e with
  | .changeKey r d =>
      { st with pending := st.pending ++ [⟨r, d⟩], loadingSlots := true,
                errorMsg := none, selectedSlotIds := ∅ }
  | .complete i =>
      match st.pending[i]? with
      | none => st
      | some f =>
          { st with slots := listSlots store f.resource_id f.day,
                    pending := st.pending.eraseIdx i, loadingSlots := false }
  | .completeErr i msg =>
      match st.pending[i]? with
      | none => st
      | some _ =>
          { st with errorMsg := some msg, pending := st.pending.eraseIdx i,
                    loadingSlots := false }
  | .toggle slot =>
      if st.loadingSlots = false ∧ slot ∈ st.slots then
        { st with selectedSlotIds := toggleSelect slot st.selectedSlotIds }
      else st

/-- Run a trace of events from the initial state. -/
def run (store : List Slot) (events : List Event) : SAState :=
  events.foldl (step store) initState

/-- A store with one slot on day 0 and one on day 1, both on resource
`r`; exercises the out-of-order completion hazard. -/
def raceStore : List Slot :=
  [⟨"a", 3600000, 7200000, false, some 5, "r"⟩,
   ⟨"b", 90000000, 93600000, false, some 7, "r"⟩]

/-- C3: the code has no staleness check, so when the user changes date
twice and the fetches complete out of order, the earlier-initiated
result of that fetch is the one finally displayed: after changing to day 0 and
then to day 1, the day-1 fetch completing first and the day-0 fetch
completing last leave the day-0 slots on screen, not the day-1 slots the
claim requires. -/
theorem loadSlots_race_applies_stale_fetch :
    (run raceStore [.changeKey "r" 0, .changeKey "r" 1, .complete 1, .complete 0]).slots
      = [⟨"a", 3600000, 7200000, false, some 5, "r"⟩]
    ∧ listSlots raceStore "r" 1 = [⟨"b", 90000000, 93600000, false, some 7, "r"⟩]
    ∧ ([⟨"a", 3600000, 7200000, false, some 5, "r"⟩] : List Slot)
        ≠ [⟨"b", 90000000, 93600000, false, some 7, "r"⟩] := by
  exact ⟨rfl, rfl, by decide⟩

/-- The Selection invariant of the spec: every selected identifier names
a slot present in the current list with `is_booked = false`. -/
def SelInv (st : SAState) : Prop :=
  ∀ x ∈ st.selectedSlotIds, ∃ s ∈ st.slots, s.id = x ∧ s.is_booked = false

instance (st : SAState) : Decidable (SelInv st) := by
  unfold SelInv
  exact inferInstance

/-- Counterexample to C8: with two overlapping fetches, the user can
select a slot from the list of the newer fetch before the stale fetch lands;
the stale completion then replaces the slot list without the selection
being reset, leaving a selected identifier that names no slot of the
current list. -/
theorem selection_invariant_violated_by_race :
    ¬ SelInv (run raceStore
        [.changeKey "r" 0, .changeKey "r" 1, .complete 1,
         .toggle ⟨"b", 90000000, 93600000, false, some 7, "r"⟩, .complete 0]) := by
  decide

/-- Reachability under sequential fetching: every step of the machine is
allowed, except that a new (resource, date) change waits until no fetch
is outstanding — the executions with no overlapping fetches. -/
inductive ReachableSeq (store : List Slot) : SAState → Prop where
  | init : ReachableSeq store initState
  | changeKey {st : SAState} (r : String) (d : Nat) :
      ReachableSeq store st → st.pending = [] →
      ReachableSeq store (step store st (.changeKey r d))
  | complete {st : SAState} (i : Nat) :
      ReachableSeq store st → ReachableSeq store (step store st (.complete i))
  | completeErr {st : SAState} (i : Nat) (msg : String) :
      ReachableSeq store st → ReachableSeq store (step store st (.completeErr i msg))
  | toggle {st : SAState} (slot : Slot) :
      ReachableSeq store st → ReachableSeq store (step store st (.toggle slot))

/-- The induction invariant: the Selection invariant, together with the
bookkeeping fact that under sequential fetching at most one fetch is in
flight, and while one is, the loading flag is up and the selection has
just been reset. -/
def StrongInv (st : SAState) : Prop :=
  SelInv st
    ∧ (st.pending = []
        ∨ ∃ f : PendingFetch, st.pending = [f] ∧ st.loadingSlots = true
            ∧ st.selectedSlotIds = ∅)

theorem strongInv_init : StrongInv initState := by
  constructor
  · intro x hx
    simp [initState] at hx
  · left
    rfl

theorem selInv_toggle {st : SAState} (slot : Slot) (hs : slot ∈ st.slots)
    (hinv : SelInv st) :
    ∀ x ∈ toggleSelect slot st.selectedSlotIds, ∃ s ∈ st.slots, s.id = x ∧ s.is_booked = false := by
  intro x hx
  unfold toggleSelect at hx
  by_cases hb : slot.is_booked
  · rw [if_pos hb] at hx
    exact hinv x hx
  · rw [if_neg hb] at hx
    by_cases hm : slot.id ∈ st.selectedSlotIds
    · rw [if_pos hm] at hx
      exact hinv x (Finset.mem_of_mem_erase hx)
    · rw [if_neg hm] at hx
      rcases Finset.mem_insert.mp hx with h | h
      · exact ⟨slot, hs, h.symm, Bool.eq_false_iff.mpr hb⟩
      · exact hinv x h

theorem strongInv_step (store : List Slot) (st : SAState) (e : Event)
    (hseq : ∀ r d, e = .changeKey r d → st.pending = [])
    (h : StrongInv st) : StrongInv (step store st e) := by
  obtain ⟨hsel, hpend⟩ := h
  cases e with
  | changeKey r d =>
    have hp : st.pending = [] := hseq r d rfl
    constructor
    · intro x hx
      simp [step] at hx
    · right
      exact ⟨⟨r, d⟩, by simp [step, hp], rfl, rfl⟩
  | complete i =>
    show StrongInv (step store st (.complete i))
    rcases hget : st.pending[i]? with _ | f
    · simpa [step, hget] using ⟨hsel, hpend⟩
    · have hne : st.pending ≠ [] := by
        intro hnil
        rw [hnil] at hget
        simp at hget
      rcases hpend with hp | ⟨f', hp, hload, hempty⟩
      · exact absurd hp hne
      · have hi : i = 0 := by
          by_contra hi
          rw [hp] at hget
          rcases i with _ | j
          · exact hi rfl
          · simp at hget
        subst hi
        constructor
        · intro x hx
          rw [step] at hx
          simp only [hget] at hx
          rw [hempty] at hx
          simp at hx
        · left
          simp [step, hget, hp, List.eraseIdx]
  | completeErr i msg =>
    rcases hget : st.pending[i]? with _ | f
    · simpa [step, hget] using ⟨hsel, hpend⟩
    · have hne : st.pending ≠ [] := by
        intro hnil
        rw [hnil] at hget
        simp at hget
      rcases hpend with hp | ⟨f', hp, hload, hempty⟩
      · exact absurd hp hne
      · have hi : i = 0 := by
          by_contra hi
          rw [hp] at hget
          rcases i with _ | j
          · exact hi rfl
          · simp at hget
        subst hi
        constructor
        · intro x hx
          simp only [step, hget] at hx ⊢
          exact hsel x hx
        · left
          simp [step, hget, hp, List.eraseIdx]
  | toggle slot =>
    by_cases hc : st.loadingSlots = false ∧ slot ∈ st.slots
    · have hp : st.pending = [] := by
        rcases hpend with hp | ⟨f', hp, hload, hempty⟩
        · exact hp
        · rw [hc.1] at hload
          exact absurd hload (by decide)
      constructor
      · intro x hx
        simp only [step, if_pos hc] at hx ⊢
        exact selInv_toggle slot hc.2 hsel x hx
      · left
        simp [step, if_pos hc, hp]
    · simpa [step, if_neg hc] using ⟨hsel, hpend⟩

/-- C8 (amended): in every reachable state of the component, through its
operations in which a new fetch is initiated only after the previous one
has settled (no overlapping fetches), every identifier in the Selection
names a slot present in the current fetched slot list whose booked flag
is false.  (With overlapping fetches the invariant can break — see the
race counterexample.) -/
theorem selection_invariant_seq (store : List Slot) (st : SAState)
    (h : ReachableSeq store st) : SelInv st := by
  suffices hs : StrongInv st from hs.1
  induction h with
  | init => exact strongInv_init
  | changeKey r d _ hp ih =>
    exact strongInv_step store _ _ (fun _ _ _ => hp) ih
  | complete i _ ih =>
    exact strongInv_step store _ _ (fun _ _ h => by cases h) ih
  | completeErr i msg _ ih =>
    exact strongInv_step store _ _ (fun _ _ h => by cases h) ih
  | toggle slot _ ih =>
    exact strongInv_step store _ _ (fun _ _ h => by cases h) ih

/-- Witness for C8 (amended): a concrete sequential trace — change key,
fetch completes, user toggles an unbooked slot — reaches a state the
theorem certifies. -/
theorem selection_invariant_seq_witness :
    SelInv (step raceStore
        (step raceStore (step raceStore initState (.changeKey "r" 0)) (.complete 0))
        (.toggle ⟨"a", 3600000, 7200000, false, some 5, "r"⟩)) :=
  selection_invariant_seq raceStore _
    (ReachableSeq.toggle _ (ReachableSeq.complete 0
      (ReachableSeq.changeKey "r" 0 ReachableSeq.init rfl)))

end SupaLink
